import Mathlib

/-!
Verification of the CMS hospital data pipeline (`cms.py`).

The Python source is shallowly embedded: pure string manipulation becomes
functions on `List Char` / `String`, the catalog records become structures,
and the effectful `process_csv_reponse` becomes an explicit state-passing
function over a file-system state together with an environment describing
the network responses for the URL being processed.
-/

namespace Cms

/-! ### Character-level model of the Python string primitives used by
`convert_to_snake_case`: `re.sub(r'\W+', '_', s).lower().strip('_')`.
The model is exact on ASCII, and beyond ASCII it carries the Unicode
behaviour of the code points that appear in this development: `str.lower`
is a full case mapping (one character may lower to several), `İ` (U+0130)
lowercases to `i` followed by the combining dot above U+0307, and regex
word characters include Unicode letters but not combining marks. -/

/-- The character class `\w` of the regex: alphanumerics plus the
underscore. Exact on ASCII; beyond ASCII, Unicode letters are represented
by the code points appearing in this development (`É`, `é`, `İ`), while
combining marks such as U+0307 (category Mn, not alphanumeric in Python)
are non-word. -/
def isWordChar (c : Char) : Bool :=
  c.isAlphanum || c == '_' || c == 'É' || c == 'é' || c == 'İ'

/-- The character class stripped by `strip('_')`. -/
def isUnderscore (c : Char) : Bool :=
  c == '_'

/-- Python `s.strip('_')`: remove leading and trailing underscores. -/
def stripUnderscore (l : List Char) : List Char :=
  (l.dropWhile isUnderscore).rdropWhile isUnderscore

/-- `re.sub(r'\W+', '_', s)` as a left-to-right scan. The flag records
whether the scanner is inside a non-word run whose single replacement
underscore has already been emitted. -/
def subNonWordAux : Bool → List Char → List Char
  | _, [] => []
  | inRun, c :: cs =>
    if isWordChar c then c :: subNonWordAux false cs
    else if inRun then subNonWordAux true cs
    else '_' :: subNonWordAux true cs

/-- `re.sub(r'\W+', '_', s)` on a whole string (scan starts outside a run). -/
def subNonWord (l : List Char) : List Char :=
  subNonWordAux false l

/-- Python `str.lower()` on one character: a full case mapping, so one
character may lower to several. Exact on ASCII (where it agrees with
`Char.toLower`); beyond ASCII it models the code points used here:
`É` lowercases to `é`, and `İ` (U+0130) to `i` followed by U+0307. -/
def pyLowerChar (c : Char) : List Char :=
  if c == 'İ' then ['i', '\u0307']
  else if c == 'É' then ['é']
  else [c.toLower]

/-- Python `str.lower()` on a character list: concatenate the per-character
full case mappings. -/
def pyLowerList : List Char → List Char
  | [] => []
  | c :: cs => pyLowerChar c ++ pyLowerList cs

/-- The function `convert_to_snake_case` from `cms.py`:
`re.sub(r'\W+', '_', column_name).lower().strip('_')`. -/
def convert_to_snake_case (s : String) : String :=
  String.mk (stripUnderscore (pyLowerList (subNonWord s.data)))

/-! ### Basic character lemmas -/

theorem toLower_eq_ofNat (c : Char) (h : c.toNat ≥ 65 ∧ c.toNat ≤ 90) :
    c.toLower = Char.ofNat (c.toNat + 32) := by
  unfold Char.toLower
  exact if_pos h

theorem toLower_eq_self (c : Char) (h : ¬(c.toNat ≥ 65 ∧ c.toNat ≤ 90)) :
    c.toLower = c := by
  unfold Char.toLower
  exact if_neg h

theorem toLower_ofNat_lower (n : Nat) (h1 : 97 ≤ n) (h2 : n ≤ 122) :
    Char.toLower (Char.ofNat n) = Char.ofNat n := by
  interval_cases n <;> decide

theorem isWordChar_ofNat_lower (n : Nat) (h1 : 97 ≤ n) (h2 : n ≤ 122) :
    isWordChar (Char.ofNat n) = true := by
  interval_cases n <;> decide

theorem toNat_ofNat_lower (n : Nat) (h1 : 97 ≤ n) (h2 : n ≤ 122) :
    (Char.ofNat n).toNat = n := by
  interval_cases n <;> decide

theorem toLower_idem (c : Char) : c.toLower.toLower = c.toLower := by
  by_cases h : c.toNat ≥ 65 ∧ c.toNat ≤ 90
  · rw [toLower_eq_ofNat c h]
    exact toLower_ofNat_lower _ (by omega) (by omega)
  · rw [toLower_eq_self c h, toLower_eq_self c h]

theorem isWordChar_toLower (c : Char) (h : isWordChar c = true) :
    isWordChar c.toLower = true := by
  by_cases hc : c.toNat ≥ 65 ∧ c.toNat ≤ 90
  · rw [toLower_eq_ofNat c hc]
    exact isWordChar_ofNat_lower _ (by omega) (by omega)
  · rw [toLower_eq_self c hc]
    exact h

theorem toLower_ascii (c : Char) (h : c.toNat < 128) : c.toLower.toNat < 128 := by
  by_cases hr : c.toNat ≥ 65 ∧ c.toNat ≤ 90
  · rw [toLower_eq_ofNat c hr, toNat_ofNat_lower _ (by omega) (by omega)]
    omega
  · rw [toLower_eq_self c hr]
    exact h

theorem pyLowerChar_ascii (c : Char) (h : c.toNat < 128) :
    pyLowerChar c = [c.toLower] := by
  have h1 : (c == 'İ') = false := by
    rw [beq_eq_false_iff_ne]
    intro hc
    subst hc
    exact absurd h (by decide)
  have h2 : (c == 'É') = false := by
    rw [beq_eq_false_iff_ne]
    intro hc
    subst hc
    exact absurd h (by decide)
  simp [pyLowerChar, h1, h2]

theorem pyLowerList_eq_map_toLower (l : List Char) (h : ∀ c ∈ l, c.toNat < 128) :
    pyLowerList l = l.map Char.toLower := by
  induction l with
  | nil => rfl
  | cons d ds ih =>
    rw [pyLowerList, pyLowerChar_ascii d (h d (List.mem_cons_self d ds)),
      ih (fun c hc => h c (List.mem_cons_of_mem d hc)), List.map_cons,
      List.singleton_append]

/-! ### Lemmas about `subNonWord` -/

theorem mem_subNonWordAux_isWordChar (l : List Char) :
    ∀ (b : Bool) (c : Char), c ∈ subNonWordAux b l → isWordChar c = true := by
  induction l with
  | nil => intro b c h; simp [subNonWordAux] at h
  | cons d ds ih =>
    intro b c h
    by_cases hw : isWordChar d
    · rw [subNonWordAux, if_pos hw] at h
      rcases List.mem_cons.mp h with h | h
      · subst h; exact hw
      · exact ih false c h
    · rw [subNonWordAux, if_neg hw] at h
      cases b with
      | true => exact ih true c (by simpa using h)
      | false =>
        rcases List.mem_cons.mp (by simpa using h) with h | h
        · subst h; decide
        · exact ih true c h

theorem mem_subNonWordAux_orig (l : List Char) :
    ∀ (b : Bool) (c : Char), c ∈ subNonWordAux b l → c ∈ l ∨ c = '_' := by
  induction l with
  | nil => intro b c h; simp [subNonWordAux] at h
  | cons d ds ih =>
    intro b c h
    by_cases hw : isWordChar d
    · rw [subNonWordAux, if_pos hw] at h
      rcases List.mem_cons.mp h with rfl | h
      · exact Or.inl (List.mem_cons_self c ds)
      · rcases ih false c h with h | h
        · exact Or.inl (List.mem_cons_of_mem d h)
        · exact Or.inr h
    · rw [subNonWordAux, if_neg hw] at h
      cases b with
      | true =>
        rcases ih true c (by simpa using h) with h | h
        · exact Or.inl (List.mem_cons_of_mem d h)
        · exact Or.inr h
      | false =>
        rcases List.mem_cons.mp (by simpa using h) with rfl | h
        · exact Or.inr rfl
        · rcases ih true c h with h | h
          · exact Or.inl (List.mem_cons_of_mem d h)
          · exact Or.inr h

theorem subNonWordAux_of_all_word (l : List Char)
    (h : ∀ c ∈ l, isWordChar c = true) : ∀ b, subNonWordAux b l = l := by
  induction l with
  | nil => intro b; rfl
  | cons d ds ih =>
    intro b
    have hd : isWordChar d = true := h d (List.mem_cons_self d ds)
    rw [subNonWordAux, if_pos hd, ih (fun c hc => h c (List.mem_cons_of_mem d hc)) false]

theorem map_eq_self_of_mem {α : Type} (f : α → α) (l : List α)
    (h : ∀ a ∈ l, f a = a) : l.map f = l := by
  induction l with
  | nil => rfl
  | cons d ds ih =>
    rw [List.map_cons, h d (List.mem_cons_self d ds),
      ih (fun a ha => h a (List.mem_cons_of_mem d ha))]

/-! ### Lemmas about `stripUnderscore` -/

theorem dropWhile_rdropWhile_dropWhile {α : Type} (p : α → Bool) (l : List α) :
    ((l.dropWhile p).rdropWhile p).dropWhile p = (l.dropWhile p).rdropWhile p := by
  rw [List.dropWhile_eq_self_iff]
  intro hl
  have hpre : (l.dropWhile p).rdropWhile p <+: l.dropWhile p :=
    List.rdropWhile_prefix p (l.dropWhile p)
  have hl2 : 0 < (l.dropWhile p).length := lt_of_lt_of_le hl hpre.length_le
  have hget : ((l.dropWhile p).rdropWhile p).get ⟨0, hl⟩ =
      (l.dropWhile p).get ⟨0, hl2⟩ := by
    simpa using hpre.getElem (n := 0) hl
  rw [hget]
  exact List.dropWhile_get_zero_not p l hl2

theorem stripUnderscore_idem (l : List Char) :
    stripUnderscore (stripUnderscore l) = stripUnderscore l := by
  unfold stripUnderscore
  rw [dropWhile_rdropWhile_dropWhile, List.rdropWhile_idempotent]

theorem mem_stripUnderscore {c : Char} {l : List Char}
    (h : c ∈ stripUnderscore l) : c ∈ l := by
  unfold stripUnderscore at h
  have h1 : c ∈ l.dropWhile isUnderscore :=
    ( List.rdropWhile_prefix isUnderscore (l.dropWhile isUnderscore)).sublist.subset h
  exact (List.dropWhile_sublist isUnderscore).subset h1

/-- Claim C3, counterexample to the claim as stated: the normalization is
not idempotent on every string. `İ` (U+0130) is a word character, so the
substitution keeps it, and `str.lower` maps it to `i` followed by the
combining dot above U+0307; on a second pass that combining mark is a
non-word character, so it is replaced by an underscore and then stripped. -/
theorem claim_C3_counterexample :
    convert_to_snake_case (convert_to_snake_case "İ") ≠ convert_to_snake_case "İ" := by
  decide

/-- Claim C3 (amended): the column-name normalization is idempotent on ASCII
column names — for every string whose characters are all ASCII, normalizing
an already-normalized name returns it unchanged. (On full Unicode it is not:
see the `İ` counterexample.) -/
theorem claim_C3_snake_case_idempotent (s : String)
    (h : ∀ c ∈ s.data, c.toNat < 128) :
    convert_to_snake_case (convert_to_snake_case s) = convert_to_snake_case s := by
  unfold convert_to_snake_case subNonWord
  have hsub_ascii : ∀ c ∈ subNonWordAux false s.data, c.toNat < 128 := by
    intro c hc
    rcases mem_subNonWordAux_orig s.data false c hc with h1 | rfl
    · exact h c h1
    · decide
  rw [pyLowerList_eq_map_toLower _ hsub_ascii]
  have hword : ∀ c ∈ stripUnderscore ((subNonWordAux false s.data).map Char.toLower),
      isWordChar c = true ∧ Char.toLower c = c ∧ c.toNat < 128 := by
    intro c hc
    have hc2 : c ∈ (subNonWordAux false s.data).map Char.toLower := mem_stripUnderscore hc
    rcases List.mem_map.mp hc2 with ⟨d, hd, rfl⟩
    have hw : isWordChar d = true := mem_subNonWordAux_isWordChar s.data false d hd
    exact ⟨isWordChar_toLower d hw, toLower_idem d, toLower_ascii d (hsub_ascii d hd)⟩
  rw [show (String.mk (stripUnderscore ((subNonWordAux false s.data).map Char.toLower))).data =
      stripUnderscore ((subNonWordAux false s.data).map Char.toLower) from rfl]
  rw [subNonWordAux_of_all_word _ (fun c hc => (hword c hc).1) false]
  rw [pyLowerList_eq_map_toLower _ (fun c hc => (hword c hc).2.2)]
  rw [map_eq_self_of_mem _ _ (fun c hc => (hword c hc).2.1)]
  rw [stripUnderscore_idem]

theorem claim_C3_snake_case_idempotent_witness :
    (∀ c ∈ "Measure Name".data, c.toNat < 128) ∧
    convert_to_snake_case (convert_to_snake_case "Measure Name") =
      convert_to_snake_case "Measure Name" :=
  ⟨by decide, claim_C3_snake_case_idempotent "Measure Name" (by decide)⟩

/-! ### Spec-side formulation of the column rewrite (for the refinement
claim about `convert_to_snake_case`) -/

/-- Spec formulation of the substitution step, following the spec's words:
walk the string run by run, keep each maximal run of word characters, and
replace each maximal run of non-word characters with exactly one underscore. -/
def collapseRuns : List Char → List Char
  | [] => []
  | c :: cs =>
    if isWordChar c then
      c :: (cs.takeWhile isWordChar ++ collapseRuns (cs.dropWhile isWordChar))
    else
      '_' :: collapseRuns (cs.dropWhile (fun d => !isWordChar d))
termination_by l => l.length
decreasing_by
  · exact Nat.lt_succ_of_le (List.dropWhile_sublist _).length_le
  · exact Nat.lt_succ_of_le (List.dropWhile_sublist _).length_le

/-- Spec formulation of the whole normalization: collapse runs, lowercase,
strip leading and trailing underscores. -/
def snake_case_spec (s : String) : String :=
  String.mk (stripUnderscore (pyLowerList (collapseRuns s.data)))

theorem subNonWordAux_true_eq (cs : List Char) :
    subNonWordAux true cs = subNonWordAux false (cs.dropWhile (fun d => !isWordChar d)) := by
  induction cs with
  | nil => rfl
  | cons d ds ih =>
    by_cases hw : isWordChar d
    · rw [subNonWordAux, if_pos hw, List.dropWhile_cons_of_neg (by simp [hw]),
        subNonWordAux, if_pos hw]
    · rw [subNonWordAux, if_neg hw, if_pos rfl, List.dropWhile_cons_of_pos (by simp [hw]), ih]

theorem subNonWordAux_word_run (cs : List Char) :
    subNonWordAux false cs =
      cs.takeWhile isWordChar ++ subNonWordAux false (cs.dropWhile isWordChar) := by
  induction cs with
  | nil => rfl
  | cons d ds ih =>
    by_cases hw : isWordChar d
    · rw [subNonWordAux, if_pos hw, List.takeWhile_cons_of_pos hw,
        List.dropWhile_cons_of_pos hw, ih, List.cons_append]
    · rw [List.takeWhile_cons_of_neg hw, List.dropWhile_cons_of_neg hw, List.nil_append]

theorem subNonWord_eq_collapseRuns_aux :
    ∀ (n : Nat) (l : List Char), l.length ≤ n → subNonWordAux false l = collapseRuns l := by
  intro n
  induction n with
  | zero =>
    intro l h
    rw [List.length_eq_zero.mp (Nat.le_zero.mp h), collapseRuns]
    rfl
  | succ n ih =>
    intro l h
    cases l with
    | nil => rw [collapseRuns]; rfl
    | cons c cs =>
      by_cases hw : isWordChar c
      · rw [subNonWordAux, if_pos hw, collapseRuns, if_pos hw, subNonWordAux_word_run cs,
          ih _ (le_trans (List.dropWhile_sublist _).length_le (Nat.le_of_succ_le_succ h))]
      · rw [subNonWordAux, if_neg hw, if_neg (by simp), collapseRuns, if_neg hw,
          subNonWordAux_true_eq cs,
          ih _ (le_trans (List.dropWhile_sublist _).length_le (Nat.le_of_succ_le_succ h))]

theorem subNonWord_eq_collapseRuns (l : List Char) :
    subNonWordAux false l = collapseRuns l :=
  subNonWord_eq_collapseRuns_aux l.length l le_rfl

/-- Claim C4: the normalization replaces every maximal run of non-word
characters with exactly one underscore, lowercases, and strips leading and
trailing underscores; in particular "Patient ID (#)" maps to "patient_id"
and "  Measure--Name  " maps to "measure_name". -/
theorem claim_C4_snake_case_spec :
    (∀ s : String, convert_to_snake_case s = snake_case_spec s) ∧
    convert_to_snake_case "Patient ID (#)" = "patient_id" ∧
    convert_to_snake_case "  Measure--Name  " = "measure_name" := by
  refine ⟨fun s => ?_, by decide, by decide⟩
  unfold convert_to_snake_case snake_case_spec subNonWord
  rw [subNonWord_eq_collapseRuns]

/-! ### Catalog records, filter and URL extraction -/

/-- One entry of a record's `distribution` list; the `downloadURL` key may be
absent. -/
structure Distribution where
  downloadURL : Option String
deriving DecidableEq

/-- A dataset record from the catalog API. `theme` models `dataset.get("theme", [])`
(`none` = key absent); `distribution` models the optional `"distribution"` key. -/
structure DatasetRecord where
  theme : Option (List String)
  distribution : Option (List Distribution)
deriving DecidableEq

/-- Python `sep.join(xs)`. -/
def pyJoin (sep : String) : List String → String
  | [] => ""
  | [x] => x
  | x :: xs => x ++ sep ++ pyJoin sep xs

/-- Python `s.lower()` on a whole string (full case mapping, see
`pyLowerChar`). -/
def pyLower (s : String) : String :=
  String.mk (pyLowerList s.data)

/-- Does `hay` start with `needle`? -/
def leadsWith : List Char → List Char → Bool
  | [], _ => true
  | _ :: _, [] => false
  | a :: as, b :: bs => a == b && leadsWith as bs

/-- Occurrence of `needle` anywhere in `hay`. -/
def containsSeq (needle : List Char) : List Char → Bool
  | [] => leadsWith needle []
  | c :: t => leadsWith needle (c :: t) || containsSeq needle t

/-- Python `sub in hay` on strings. -/
def strContains (hay sub : String) : Bool :=
  containsSeq sub.data hay.data

/-- The filter predicate of `filter_hospital_datasets`:
`"hospital" in " ".join(dataset.get("theme", [])).lower()`. -/
def hospitalTheme (d : DatasetRecord) : Bool :=
  strContains (pyLower (pyJoin " " (d.theme.getD []))) "hospital"

/-- `filter_hospital_datasets` from `cms.py`. -/
def filter_hospital_datasets (metadata : List DatasetRecord) : List DatasetRecord :=
  metadata.filter hospitalTheme

/-- The per-record URL extraction of `extract_csv_urls`: the record contributes
its first distribution entry's `downloadURL` iff the `distribution` key is
present, the list is non-empty (truthy) and the first entry has the key. -/
def firstDownloadURL (d : DatasetRecord) : Option String :=
  match d.distribution with
  | some (e :: _) => e.downloadURL
  | _ => none

/-- `extract_csv_urls` from `cms.py`. -/
def extract_csv_urls (datasets : List DatasetRecord) : List String :=
  datasets.filterMap firstDownloadURL

/-- Python `url.split("/")` for a one-character separator. -/
def splitOnChar (sep : Char) : List Char → List (List Char)
  | [] => [[]]
  | c :: cs =>
    if c == sep then [] :: splitOnChar sep cs
    else
      match splitOnChar sep cs with
      | [] => [[c]]
      | r :: rs => (c :: r) :: rs

/-- `file_url.split("/")[-1]`, the file name used by `process_csv_reponse`. -/
def lastSegment (url : String) : String :=
  String.mk ((splitOnChar '/' url.data).getLastD [])

/-- Outcome of `requests.get(CMS_API_URL)` + `raise_for_status()` + `.json()`:
either the parsed list of records, or a raised `requests.RequestException`
(network failure or HTTP error status). -/
inductive FetchOutcome where
  | success (records : List DatasetRecord)
  | requestError (msg : String)

/-- `fetch_dataset_metadata` from `cms.py`, as a function of the request
outcome: the `except requests.RequestException` branch returns `[]`. -/
def fetch_dataset_metadata : FetchOutcome → List DatasetRecord
  | .success rs => rs
  | .requestError _ => []

/-- Claim C7: the Dataset Filter keeps exactly the records whose theme tags,
joined and lowercased, contain "hospital", preserves order (the output is a
sublist of the input), retains the `["Hospital Compare", "Quality"]` record
and rejects the `["Nursing Home"]` record. -/
theorem claim_C7_filter_hospital :
    (∀ (ms : List DatasetRecord) (d : DatasetRecord),
      d ∈ filter_hospital_datasets ms ↔ d ∈ ms ∧ hospitalTheme d = true) ∧
    (∀ ms : List DatasetRecord, (filter_hospital_datasets ms).Sublist ms) ∧
    filter_hospital_datasets [⟨some ["Hospital Compare", "Quality"], none⟩] =
      [⟨some ["Hospital Compare", "Quality"], none⟩] ∧
    filter_hospital_datasets [⟨some ["Nursing Home"], none⟩] = [] := by
  refine ⟨fun ms d => ?_, fun ms => List.filter_sublist ms, by decide, by decide⟩
  simp [filter_hospital_datasets, List.mem_filter]

/-- Claim C8: the URL Extractor emits, in input order and without removing
duplicates, the first distribution entry's download URL of each record that
has one, and skips every other record; a record with empty `distribution` is
skipped, and the `"https://x/y/data.csv"` record contributes its URL, whose
final path segment is `"data.csv"`. -/
theorem claim_C8_extract_urls :
    (∀ (d : DatasetRecord) (ds : List DatasetRecord),
      extract_csv_urls (d :: ds) =
        match firstDownloadURL d with
        | some u => u :: extract_csv_urls ds
        | none => extract_csv_urls ds) ∧
    extract_csv_urls [] = [] ∧
    extract_csv_urls [⟨none, some []⟩, ⟨none, some [⟨some "https://x/y/data.csv"⟩]⟩] =
      ["https://x/y/data.csv"] ∧
    extract_csv_urls [⟨none, some [⟨some "https://x/y/data.csv"⟩]⟩,
        ⟨none, some [⟨some "https://x/y/data.csv"⟩]⟩] =
      ["https://x/y/data.csv", "https://x/y/data.csv"] ∧
    lastSegment "https://x/y/data.csv" = "data.csv" := by
  refine ⟨fun d ds => ?_, rfl, by decide, by decide, by decide⟩
  simp only [extract_csv_urls, List.filterMap_cons]
  cases firstDownloadURL d <;> rfl

/-- Claim C9: on any network or HTTP failure when calling the catalog API,
`fetch_dataset_metadata` returns the empty sequence rather than raising. -/
theorem claim_C9_fetch_failure_empty (msg : String) :
    fetch_dataset_metadata (.requestError msg) = [] :=
  rfl

/-! ### The Change Cache and the File Processor

`metadata.json` is modelled as `Option CacheBytes`: `none` when the file does
not exist, `some (.valid m)` when it holds the JSON serialization of the
mapping `m`, and `some .corrupt` when its bytes do not parse as JSON (so
`json.load` raises). The per-URL network behaviour is an explicit
environment; the file system is explicit state. -/

/-- Contents of the persisted cache file `metadata.json`. -/
inductive CacheBytes where
  | valid (entries : List (String × String))
  | corrupt
deriving DecidableEq

/-- The file-system state touched by `process_csv_reponse`: the cache file and
the local data files (name ↦ bytes). -/
structure PipeState where
  cacheFile : Option CacheBytes
  localFiles : List (String × String)
deriving DecidableEq

/-- Python `metadata.get(file_name, dflt)`. -/
def dictGet (m : List (String × String)) (k dflt : String) : String :=
  match m.find? (fun p => p.1 == k) with
  | some p => p.2
  | none => dflt

/-- Python `metadata[file_name] = v`: replace in place, or append a new key. -/
def dictSet (m : List (String × String)) (k v : String) : List (String × String) :=
  if m.any (fun p => p.1 == k) then
    m.map (fun p => if p.1 == k then (k, v) else p)
  else
    m ++ [(k, v)]

/-- `load_metadata` from `cms.py`: `{}` when the file is absent, the parsed
mapping when it parses, and a raised `JSONDecodeError` when it does not
(the function has no exception handler of its own). -/
def load_metadata : Option CacheBytes → Except String (List (String × String))
  | none => .ok []
  | some (.valid m) => .ok m
  | some .corrupt => .error "json.decoder.JSONDecodeError"

/-- `save_metadata` from `cms.py`: rewrite the whole cache file. -/
def save_metadata (m : List (String × String)) (st : PipeState) : PipeState :=
  { st with cacheFile := some (.valid m) }

/-- Outcome of one HTTP request: a value, or a raised
`requests.RequestException`. -/
inductive ReqOutcome (α : Type) where
  | ok (a : α)
  | reqErr (msg : String)

/-- Network and pandas behaviour for one URL: the `Last-Modified` header
returned by `requests.head` (`none` = header absent), the body returned by
`requests.get` + `raise_for_status`, and the `pd.read_csv` / rename /
`to_csv` pipeline applied to the downloaded bytes (`.error` = it raises). -/
structure UrlEnv where
  headLastModified : ReqOutcome (Option String)
  getResult : ReqOutcome String
  csvRewrite : String → Except String String

/-- Result of one `process_csv_reponse` call: the final file-system state,
whether `requests.get` was issued, and the message of an exception that
propagated out of the function (`none` = it returned normally). -/
structure RunOutcome where
  state : PipeState
  didDownload : Bool
  uncaught : Option String
deriving DecidableEq

/-- `process_csv_reponse` from `cms.py`. `load_metadata` runs before the
`try` block, so its exceptions propagate; everything from `requests.head`
on is inside `try` and all its exceptions are caught and logged. -/
def process_csv_reponse (env : UrlEnv) (file_url : String) (st : PipeState) : RunOutcome :=
  let file_name := lastSegment file_url
  match load_metadata st.cacheFile with
  | .error e => ⟨st, false, some e⟩
  | .ok metadata =>
    let last_modified := dictGet metadata file_name ""
    match env.headLastModified with
    | .reqErr _ => ⟨st, false, none⟩
    | .ok hdr =>
      let new_last_modified := hdr.getD ""
      if last_modified == new_last_modified then
        ⟨st, false, none⟩
      else
        match env.getResult with
        | .reqErr _ => ⟨st, true, none⟩
        | .ok content =>
          let st1 := { st with localFiles := dictSet st.localFiles file_name content }
          match env.csvRewrite content with
          | .error _ => ⟨st1, true, none⟩
          | .ok newContent =>
            let st2 := { st1 with localFiles := dictSet st1.localFiles file_name newContent }
            ⟨save_metadata (dictSet metadata file_name new_last_modified) st2, true, none⟩

/-- Claim C1: when the remote `Last-Modified` value equals the cached value
for the URL's file name, the processor stops — no `requests.get` download,
no local write, and the cache file (hence the whole state) is unchanged. -/
theorem claim_C1_unmodified_skip (env : UrlEnv) (url : String) (st : PipeState)
    (m : List (String × String)) (hdr : Option String)
    (hload : load_metadata st.cacheFile = .ok m)
    (hhead : env.headLastModified = .ok hdr)
    (heq : hdr.getD "" = dictGet m (lastSegment url) "") :
    process_csv_reponse env url st = ⟨st, false, none⟩ := by
  simp only [process_csv_reponse, hload, hhead]
  rw [heq]
  simp

theorem claim_C1_unmodified_skip_witness :
    process_csv_reponse
      ⟨.ok (some "Tue, 01 Apr 2025 00:00:00 GMT"), .reqErr "unused", fun s => .ok s⟩
      "https://x/y/data.csv"
      ⟨some (.valid [("data.csv", "Tue, 01 Apr 2025 00:00:00 GMT")]), []⟩ =
      ⟨⟨some (.valid [("data.csv", "Tue, 01 Apr 2025 00:00:00 GMT")]), []⟩, false, none⟩ :=
  claim_C1_unmodified_skip _ _ _
    [("data.csv", "Tue, 01 Apr 2025 00:00:00 GMT")]
    (some "Tue, 01 Apr 2025 00:00:00 GMT") rfl rfl (by decide)

/-- Claim C2: if the download succeeded but the column-rewrite step raises,
the persisted cache file — and so the entry for this file name — keeps its
pre-run value. -/
theorem claim_C2_rewrite_failure_no_cache_update (env : UrlEnv) (url : String)
    (st : PipeState) (m : List (String × String)) (hdr : Option String)
    (content e : String)
    (hload : load_metadata st.cacheFile = .ok m)
    (hhead : env.headLastModified = .ok hdr)
    (hne : ¬ dictGet m (lastSegment url) "" = hdr.getD "")
    (hget : env.getResult = .ok content)
    (hrw : env.csvRewrite content = .error e) :
    (process_csv_reponse env url st).state.cacheFile = st.cacheFile := by
  have hc : ¬(dictGet m (lastSegment url) "" == hdr.getD "") = true := by
    simpa using hne
  simp [process_csv_reponse, hload, hhead, hget, hrw, hc]

theorem claim_C2_rewrite_failure_no_cache_update_witness :
    (process_csv_reponse
      ⟨.ok (some "Tue, 01 Apr 2025 00:00:00 GMT"), .ok "raw,bytes",
        fun _ => .error "pandas.errors.ParserError"⟩
      "https://x/y/data.csv"
      ⟨some (.valid [("data.csv", "Mon, 31 Mar 2025 00:00:00 GMT")]), []⟩).state.cacheFile =
      some (.valid [("data.csv", "Mon, 31 Mar 2025 00:00:00 GMT")]) :=
  claim_C2_rewrite_failure_no_cache_update _ _ _
    [("data.csv", "Mon, 31 Mar 2025 00:00:00 GMT")]
    (some "Tue, 01 Apr 2025 00:00:00 GMT")
    "raw,bytes" "pandas.errors.ParserError"
    rfl rfl (by decide) rfl rfl

/-- Claim C5 (amended): `load_metadata` returns the persisted mapping when the
cache file exists and parses, and the empty mapping when it is absent; but
when the file exists and is unreadable (does not parse), it raises instead of
returning the empty mapping. -/
theorem claim_C5_load_metadata (m : List (String × String)) :
    load_metadata none = .ok [] ∧
    load_metadata (some (.valid m)) = .ok m ∧
    load_metadata (some .corrupt) = .error "json.decoder.JSONDecodeError" :=
  ⟨rfl, rfl, rfl⟩

/-- Claim C5, counterexample to the claim as stated: on an existing but
unreadable cache file, `load_metadata` does not return the empty mapping —
it raises. -/
theorem claim_C5_load_metadata_counterexample :
    load_metadata (some .corrupt) ≠ .ok [] := by
  intro h
  exact Except.noConfusion h

/-- Claim C6 (amended): once `load_metadata` has succeeded, no exception
escapes `process_csv_reponse` — all errors from the HEAD request onward are
caught at the per-file boundary. (A cache-read failure, raised before the
`try` block, does propagate.) -/
theorem claim_C6_no_uncaught_after_load (env : UrlEnv) (url : String)
    (st : PipeState) (m : List (String × String))
    (hload : load_metadata st.cacheFile = .ok m) :
    (process_csv_reponse env url st).uncaught = none := by
  cases hh : env.headLastModified with
  | reqErr msg => simp [process_csv_reponse, hload, hh]
  | ok hdr =>
    by_cases hc : (dictGet m (lastSegment url) "" == hdr.getD "") = true
    · simp [process_csv_reponse, hload, hh, hc]
    · cases hg : env.getResult with
      | reqErr msg => simp [process_csv_reponse, hload, hh, hc, hg]
      | ok content =>
        cases hr : env.csvRewrite content with
        | error e => simp [process_csv_reponse, hload, hh, hc, hg, hr]
        | ok newContent => simp [process_csv_reponse, hload, hh, hc, hg, hr]

theorem claim_C6_no_uncaught_after_load_witness :
    (process_csv_reponse ⟨.reqErr "ConnectionError", .reqErr "unused", fun s => .ok s⟩
      "https://x/y/data.csv" ⟨none, []⟩).uncaught = none :=
  claim_C6_no_uncaught_after_load _ _ _ [] rfl

/-- Claim C6, counterexample to the claim as stated: a cache-read failure (a
cache file that exists but does not parse) is raised by `load_metadata`
before the `try` block and propagates out of `process_csv_reponse`. -/
theorem claim_C6_counterexample :
    (process_csv_reponse ⟨.ok none, .reqErr "unused", fun s => .ok s⟩
      "https://x/y/data.csv" ⟨some .corrupt, []⟩).uncaught ≠ none := by
  decide

/-- Claim C10: a file name with no cache entry (cached value defaults to "")
whose HEAD response carries no `Last-Modified` header (remote value defaults
to "") compares equal, so the file is skipped: never downloaded, state — in
particular the cache — unchanged, so no cache entry is ever created. -/
theorem claim_C10_absent_header_never_downloaded (env : UrlEnv) (url : String)
    (st : PipeState) (m : List (String × String))
    (hload : load_metadata st.cacheFile = .ok m)
    (hnone : m.find? (fun p => p.1 == lastSegment url) = none)
    (hhead : env.headLastModified = .ok none) :
    process_csv_reponse env url st = ⟨st, false, none⟩ := by
  have h1 : dictGet m (lastSegment url) "" = "" := by simp [dictGet, hnone]
  simp [process_csv_reponse, hload, hhead, h1]

theorem claim_C10_absent_header_never_downloaded_witness :
    process_csv_reponse ⟨.ok none, .reqErr "unused", fun s => .ok s⟩
      "https://x/y/data.csv" ⟨none, []⟩ = ⟨⟨none, []⟩, false, none⟩ :=
  claim_C10_absent_header_never_downloaded _ _ _ [] rfl rfl rfl

end Cms
